import Mathlib

/-!
Shallow embedding of the sea-state estimation engine of `signalk-seastate`
(`src/index.ts`).

Modelling conventions:
* Every JavaScript number that is only ever combined by field operations and
  comparisons (pitch, roll, yaw, timestamps, configuration values, period
  estimates) is modelled as a rational number `ℚ` (every IEEE double is a
  rational), which keeps that part of the development executable.
* Values produced by the transcendental library functions `Math.sin`,
  `Math.cos`, `Math.sqrt`, `Math.atan2` (motion magnitude, cross-correlation,
  directions, confidence) live in `ℝ`.
* `null`/`undefined` is `Option.none`; a JavaScript function that can return
  `null` returns an `Option`.
* Mutation of the plugin state is explicit state passing: each stateful
  function takes the state components it reads and returns the updated ones.
-/

namespace SeaState

/-- One entry of `state.attitudeBuffer` (`AttitudeBufferEntry`), as pushed by
`calculateSeaState` (src/index.ts:671-677). -/
structure AttitudeBufferEntry where
  pitch : ℚ
  roll : ℚ
  yaw : Option ℚ
  timestamp : ℚ
  motionMagnitude : ℝ

/-- The plugin configuration fields read by the estimation engine
(src/index.ts:173-188).  Fields that the engine never reads (`enabled`,
`baselineK`, `vesselName`, `compassSource`) are omitted.
`directionSmoothing` is real because it is only ever used in real
arithmetic (circular smoothing). -/
structure PluginConfig where
  waveMultiplier : ℚ
  updateRate : ℚ
  enableHeave : Bool
  enablePeriod : Bool
  enableDirection : Bool
  vesselLength : ℚ
  periodBufferSize : ℚ
  minimumPeriod : ℚ
  maximumPeriod : ℚ
  directionSmoothing : ℝ

/-- `state.maxBufferSize = Math.ceil(periodBufferSize * 1000 / updateRate)`
(src/index.ts:206). -/
def maxBufferSizeOf (cfg : PluginConfig) : ℤ :=
  ⌈cfg.periodBufferSize * 1000 / cfg.updateRate⌉

/-- `arr.reduce((a, b) => a + b, 0) / arr.length`, the mean as computed at
src/index.ts:412-413, 453, 639 and 649.  (On the empty list this is `0/0`,
which is `0` in `ℚ`; every use in the source is guarded by a length check.) -/
def listMean (l : List ℚ) : ℚ :=
  l.sum / l.length

/-- Push to a bounded history list: `push` followed by a single `shift` when
the length exceeds `maxLen` (the pattern at src/index.ts:640-646, 679-684 and
567-570). -/
def pushBounded (l : List ℚ) (v : ℚ) (maxLen : ℕ) : List ℚ :=
  let l1 := l ++ [v]
  if maxLen < l1.length then l1.tail else l1

/-- Timestamps of the zero crossings detected in the roll series of the
buffer: a crossing is recorded at index `i ≥ 1` whenever
`(prev < 0 ∧ curr ≥ 0) ∨ (prev > 0 ∧ curr ≤ 0)`, with the timestamp of the
later entry (src/index.ts:608-620). -/
def zeroCrossingTimes : List AttitudeBufferEntry → List ℚ
  | a :: b :: rest =>
      (if (a.roll < 0 ∧ 0 ≤ b.roll) ∨ (0 < a.roll ∧ b.roll ≤ 0) then [b.timestamp] else []) ++
        zeroCrossingTimes (b :: rest)
  | _ => []

/-- The accepted full periods of one scan: for each consecutive pair of
crossing times, `periodSeconds = (t2 - t1)/1000` is kept when it lies in
`[minimumPeriod, maximumPeriod]`, and the recorded value is
`periodSeconds * 2` (src/index.ts:625-634). -/
def periodsFromCrossings (cfg : PluginConfig) : List ℚ → List ℚ
  | t1 :: t2 :: rest =>
      (if cfg.minimumPeriod ≤ (t2 - t1) / 1000 ∧ (t2 - t1) / 1000 ≤ cfg.maximumPeriod
        then [(t2 - t1) / 1000 * 2] else []) ++
        periodsFromCrossings cfg (t2 :: rest)
  | _ => []

/-- `calculatePeriod` (src/index.ts:602-650).  Takes the attitude buffer and
the current `periodState.periods` history, returns the reported period (or
`none`) together with the updated history. -/
def calculatePeriod (buffer : List AttitudeBufferEntry) (periods : List ℚ)
    (cfg : PluginConfig) : Option ℚ × List ℚ :=
  if buffer.length < 10 then (none, periods)
  else
    let crossings := zeroCrossingTimes buffer
    if crossings.length < 2 then (none, periods)
    else
      let currentPeriods := periodsFromCrossings cfg crossings
      if currentPeriods = [] then (none, periods)
      else
        let periods1 := pushBounded periods (listMean currentPeriods) 10
        (some (listMean periods1), periods1)

/-- The dominant motion axis classification of `calculateMotionStatistics`
(src/index.ts:424-433). -/
inductive DominantAxis where
  | pitch
  | roll
  | combined
  deriving DecidableEq

/-- The record returned by `calculateMotionStatistics` (`MotionStatistics`,
src/index.ts:458-464). -/
structure MotionStatistics where
  pitchVariance : ℚ
  rollVariance : ℚ
  crossCorrelation : ℝ
  dominantMotionAxis : DominantAxis
  motionPhaseShift : ℚ

/-- `buffer.map((b) => b.pitch)` (src/index.ts:409). -/
def pitchVals (buffer : List AttitudeBufferEntry) : List ℚ :=
  buffer.map (fun e => e.pitch)

/-- `buffer.map((b) => b.roll)` (src/index.ts:410). -/
def rollVals (buffer : List AttitudeBufferEntry) : List ℚ :=
  buffer.map (fun e => e.roll)

/-- Population variance of a series around its mean, dividing by the length
(src/index.ts:415-416). -/
def listVariance (l : List ℚ) : ℚ :=
  (l.map (fun v => (v - listMean l) ^ 2)).sum / l.length

/-- `pitchVariance` of the buffer (src/index.ts:415). -/
def pitchVarianceOf (buffer : List AttitudeBufferEntry) : ℚ :=
  listVariance (pitchVals buffer)

/-- `rollVariance` of the buffer (src/index.ts:416). -/
def rollVarianceOf (buffer : List AttitudeBufferEntry) : ℚ :=
  listVariance (rollVals buffer)

/-- Numerator of the cross-correlation,
`pitchValues.reduce((acc, pitch, i) => acc + (pitch - pitchMean) * (rollValues[i] - rollMean), 0)`
(src/index.ts:420).  `pitchValues[i]` and `rollValues[i]` are the projections
of the same buffer entry, so the indexed traversal is the sum over the
buffer. -/
def crossNumOf (buffer : List AttitudeBufferEntry) : ℚ :=
  (buffer.map
    (fun e => (e.pitch - listMean (pitchVals buffer)) * (e.roll - listMean (rollVals buffer)))).sum

/-- The cross-correlation
`crossNum / (pitchValues.length * Math.sqrt(pitchVariance * rollVariance))`
(src/index.ts:419-421), followed by the guard
`isNaN(crossCorrelation) ? 0 : crossCorrelation` (src/index.ts:461).
In exact arithmetic the division produces NaN exactly when numerator and
denominator are both zero (the numerator vanishes whenever the variance
product does, see `crossNumOf_eq_zero_of_varProd_eq_zero`), and in that case
Lean's zero-denominator convention already yields the forced value `0`, so
the guard is the identity here. -/
noncomputable def crossCorrelationOf (buffer : List AttitudeBufferEntry) : ℝ :=
  ((crossNumOf buffer : ℚ) : ℝ) /
    ((buffer.length : ℝ) * Real.sqrt ((pitchVarianceOf buffer * rollVarianceOf buffer : ℚ) : ℝ))

/-- `varianceRatio = pitchVariance / (rollVariance + 1e-10)`
(src/index.ts:425). -/
def varianceRatioOf (buffer : List AttitudeBufferEntry) : ℚ :=
  pitchVarianceOf buffer / (rollVarianceOf buffer + 1 / 10000000000)

/-- Dominant axis from the variance ratio: `> 2 → pitch`, `< 0.5 → roll`,
else `combined` (src/index.ts:427-433). -/
def dominantAxisOf (buffer : List AttitudeBufferEntry) : DominantAxis :=
  if 2 < varianceRatioOf buffer then .pitch
  else if varianceRatioOf buffer < 1 / 2 then .roll
  else .combined

/-- `findPeaks`: indices `1 ≤ i ≤ length - 2` whose value strictly exceeds
both neighbours (src/index.ts:468-476). -/
def findPeaks (values : List ℚ) : List ℕ :=
  (List.range values.length).filter
    (fun i => decide (1 ≤ i ∧ i + 1 < values.length ∧
      values.getD (i - 1) 0 < values.getD i 0 ∧ values.getD (i + 1) 0 < values.getD i 0))

/-- `rollPeaks.reduce((nearest, rollPeak) => |rollPeak - pitchPeak| < |nearest - pitchPeak| ? rollPeak : nearest)`:
JavaScript `reduce` without an initial value folds the tail with the head as
the accumulator (src/index.ts:446-448). -/
def nearestPeak (pitchPeak : ℕ) : List ℕ → ℕ
  | [] => 0
  | p :: rest =>
      rest.foldl
        (fun (nearest rollPeak : ℕ) =>
          if |(rollPeak : ℤ) - (pitchPeak : ℤ)| < |(nearest : ℤ) - (pitchPeak : ℤ)|
            then rollPeak else nearest) p

/-- `motionPhaseShift` (src/index.ts:436-456): only computed when the buffer
holds more than 10 entries; pairs each pitch peak with its nearest roll peak
and averages the index differences scaled by the update rate. -/
def motionPhaseShiftOf (buffer : List AttitudeBufferEntry) (cfg : PluginConfig) : ℚ :=
  if 10 < buffer.length then
    let pitchPeaks := findPeaks (pitchVals buffer)
    let rollPeaks := findPeaks (rollVals buffer)
    if pitchPeaks ≠ [] ∧ rollPeaks ≠ [] then
      let timeDiffs := pitchPeaks.map
        (fun pitchPeak =>
          (((nearestPeak pitchPeak rollPeaks : ℤ) - (pitchPeak : ℤ) : ℤ) : ℚ) * cfg.updateRate)
      if 0 < timeDiffs.length then listMean timeDiffs else 0
    else 0
  else 0

/-- `calculateMotionStatistics` (src/index.ts:397-465): neutral values below
5 samples, otherwise variances, cross-correlation, dominant axis and phase
shift of the buffer. -/
noncomputable def calculateMotionStatistics (buffer : List AttitudeBufferEntry)
    (cfg : PluginConfig) : MotionStatistics :=
  if buffer.length < 5 then
    { pitchVariance := 0, rollVariance := 0, crossCorrelation := 0,
      dominantMotionAxis := .combined, motionPhaseShift := 0 }
  else
    { pitchVariance := pitchVarianceOf buffer
      rollVariance := rollVarianceOf buffer
      crossCorrelation := crossCorrelationOf buffer
      dominantMotionAxis := dominantAxisOf buffer
      motionPhaseShift := motionPhaseShiftOf buffer cfg }

/-- JavaScript `Math.atan2(y, x)`, with values in `(-π, π]`. -/
noncomputable def atan2 (y x : ℝ) : ℝ :=
  if 0 < x then Real.arctan (y / x)
  else if x < 0 then
    (if 0 ≤ y then Real.arctan (y / x) + Real.pi else Real.arctan (y / x) - Real.pi)
  else
    (if 0 < y then Real.pi / 2 else if y < 0 then -(Real.pi / 2) else 0)

/-- `calculateRelativeWaveDirection` (src/index.ts:479-516): `none` below 10
samples; otherwise a vessel-relative bearing from the dominant axis and the
cross-correlation sign, or (combined case) vector analysis over the last 10
entries; finally shifted by `2π` if negative. -/
noncomputable def calculateRelativeWaveDirection (buffer : List AttitudeBufferEntry)
    (stats : MotionStatistics) : Option ℝ :=
  if buffer.length < 10 then none
  else
    let relativeDirection : ℝ :=
      match stats.dominantMotionAxis with
      | .pitch => if 0 < stats.crossCorrelation then 0 else Real.pi
      | .roll => if 0 < stats.crossCorrelation then Real.pi / 2 else 3 * Real.pi / 2
      | .combined =>
        let recentBuffer := buffer.drop (buffer.length - 10)
        let sums := recentBuffer.foldl
          (fun s e =>
            (s.1 + Real.cos (atan2 (e.roll : ℝ) (e.pitch : ℝ)) * e.motionMagnitude,
             s.2 + Real.sin (atan2 (e.roll : ℝ) (e.pitch : ℝ)) * e.motionMagnitude))
          ((0 : ℝ), (0 : ℝ))
        atan2 sums.2 sums.1
    some (if relativeDirection < 0 then relativeDirection + 2 * Real.pi else relativeDirection)

/-- The normalization `if (x >= 2π) x -= 2π; if (x < 0) x += 2π` applied to
fresh absolute directions (src/index.ts:538-543 and 558-563). -/
noncomputable def wrapDirection (x : ℝ) : ℝ :=
  let x1 := if 2 * Real.pi ≤ x then x - 2 * Real.pi else x
  if x1 < 0 then x1 + 2 * Real.pi else x1

/-- The angle-difference wrap `if (d > π) d -= 2π; if (d < -π) d += 2π`
(src/index.ts:551-553 and 582-584). -/
noncomputable def wrapDelta (x : ℝ) : ℝ :=
  let x1 := if Real.pi < x then x - 2 * Real.pi else x
  if x1 < -Real.pi then x1 + 2 * Real.pi else x1

/-- `state.directionState` (src/index.ts:56-60). -/
structure DirectionState where
  directionBuffer : List ℝ
  lastDirection : Option ℝ
  directionConfidence : ℝ

/-- The circular-variance based confidence update (src/index.ts:573-590):
once the direction history exceeds 5 entries, one minus the mean squared
wrapped deviation from the circular mean, scaled by `π²/4` and clamped below
at 0; otherwise the previous confidence. -/
noncomputable def directionConfidenceOf (directions : List ℝ) (oldConfidence : ℝ) : ℝ :=
  if 5 < directions.length then
    let avgDirection := atan2 ((directions.map Real.sin).sum / directions.length)
      ((directions.map Real.cos).sum / directions.length)
    let variance :=
      (directions.map (fun dir => wrapDelta (dir - avgDirection) * wrapDelta (dir - avgDirection))).sum /
        directions.length
    max 0 (1 - variance / (Real.pi * Real.pi / 4))
  else oldConfidence

/-- `calculateAbsoluteWaveDirection` (src/index.ts:519-599).  Consumes the
buffer, the statistics, the last known heading and the direction state;
returns the reported absolute direction (or `none`) and the updated
direction state.  The state is untouched on every `none` path. -/
noncomputable def calculateAbsoluteWaveDirection (buffer : List AttitudeBufferEntry)
    (stats : MotionStatistics) (lastHeading : Option ℝ) (dirState : DirectionState)
    (cfg : PluginConfig) : Option ℝ × DirectionState :=
  match lastHeading with
  | none => (none, dirState)
  | some heading =>
    match calculateRelativeWaveDirection buffer stats with
    | none => (none, dirState)
    | some relativeDirection =>
      let absoluteDirection := wrapDirection (relativeDirection + heading)
      let smoothed :=
        match dirState.lastDirection with
        | none => absoluteDirection
        | some lastDir =>
          wrapDirection (lastDir + cfg.directionSmoothing * wrapDelta (absoluteDirection - lastDir))
      let directionBuffer1 := dirState.directionBuffer ++ [smoothed]
      let directionBuffer2 :=
        if 10 < directionBuffer1.length then directionBuffer1.tail else directionBuffer1
      let confidence := directionConfidenceOf directionBuffer2 dirState.directionConfidence
      (some smoothed, ⟨directionBuffer2, some smoothed, confidence⟩)

/-- `calculateHeave(pitchRad, vesselLength) = vesselLength * Math.sin(pitchRad)`
(src/index.ts:390-394). -/
noncomputable def calculateHeave (pitchRad : ℝ) (vesselLength : ℝ) : ℝ :=
  vesselLength * Real.sin pitchRad

/-- `state.lastAttitude` (src/index.ts:43-48).  The stored timestamp string
is never read by the estimation engine and is omitted. -/
structure LastAttitude where
  pitch : Option ℚ
  roll : Option ℚ
  yaw : Option ℚ

/-- The engine-relevant part of `PluginState` (src/index.ts:41-63).
`periodState.lastZeroCrossing` is written `null` at construction and never
read or updated, and is omitted. -/
structure PluginState where
  lastAttitude : LastAttitude
  lastHeading : Option ℝ
  attitudeBuffer : List AttitudeBufferEntry
  maxBufferSize : ℤ
  periods : List ℚ
  directionState : DirectionState
  currentConfig : PluginConfig

/-- The per-tick result record (`SeaStateResults`), as assembled at
src/index.ts:710-719.  The ISO timestamp string is represented by the tick
time. -/
structure SeaStateResults where
  waveHeight : ℝ
  heave : Option ℝ
  period : Option ℚ
  direction : Option ℝ
  directionDegrees : Option ℝ
  directionConfidence : ℝ
  motionMagnitude : ℝ
  timestamp : ℚ

/-- The buffer push of `calculateSeaState`: append the entry, then a single
`shift` when the length exceeds `maxBufferSize` (src/index.ts:679-684). -/
def pushEntry (buffer : List AttitudeBufferEntry) (entry : AttitudeBufferEntry)
    (maxBufferSize : ℤ) : List AttitudeBufferEntry :=
  let buffer1 := buffer ++ [entry]
  if maxBufferSize < (buffer1.length : ℤ) then buffer1.tail else buffer1

/-- The yaw stored into a buffer entry: `state.lastAttitude.yaw || undefined`
(src/index.ts:674) — JavaScript `||` also maps the falsy value `0` to
`undefined`. -/
def storedYaw : Option ℚ → Option ℚ
  | some y => if y = 0 then none else some y
  | none => none

/-- `calculateSeaState` (src/index.ts:653-736), one estimation tick: skip when
pitch or roll is unknown, otherwise push a buffer entry, compute wave height
and the enabled optional outputs, and emit a result record.  `now` is
`Date.now()` in milliseconds. -/
noncomputable def calculateSeaState (s : PluginState) (now : ℚ) :
    PluginState × Option SeaStateResults :=
  match s.lastAttitude.pitch, s.lastAttitude.roll with
  | some pitch, some roll =>
    let cfg := s.currentConfig
    let pitchDeg : ℝ := (pitch : ℝ) * (180 / Real.pi)
    let rollDeg : ℝ := (roll : ℝ) * (180 / Real.pi)
    let motionMagnitude : ℝ := Real.sqrt (pitchDeg ^ 2 + rollDeg ^ 2)
    let entry : AttitudeBufferEntry :=
      { pitch := pitch, roll := roll, yaw := storedYaw s.lastAttitude.yaw,
        timestamp := now, motionMagnitude := motionMagnitude }
    let buffer := pushEntry s.attitudeBuffer entry s.maxBufferSize
    let waveHeight : ℝ := (cfg.waveMultiplier : ℝ) * motionMagnitude
    let heave : Option ℝ :=
      if cfg.enableHeave then some (calculateHeave (pitch : ℝ) (cfg.vesselLength : ℝ)) else none
    let periodPair : Option ℚ × List ℚ :=
      if cfg.enablePeriod ∧ 10 ≤ buffer.length then calculatePeriod buffer s.periods cfg
      else (none, s.periods)
    let directionPair : Option ℝ × DirectionState :=
      if cfg.enableDirection ∧ 10 ≤ buffer.length then
        calculateAbsoluteWaveDirection buffer (calculateMotionStatistics buffer cfg)
          s.lastHeading s.directionState cfg
      else (none, s.directionState)
    let results : SeaStateResults :=
      { waveHeight := waveHeight
        heave := heave
        period := periodPair.1
        direction := directionPair.1
        directionDegrees := directionPair.1.map (fun d => d * (180 / Real.pi))
        directionConfidence := directionPair.2.directionConfidence
        motionMagnitude := motionMagnitude
        timestamp := now }
    ({ s with
        attitudeBuffer := buffer
        periods := periodPair.2
        directionState := directionPair.2 }, some results)
  | _, _ => (s, none)

/-- One externally-delivered batch of inputs before a tick: an attitude value
(fields individually optional, mirroring `updateAttitudeFromValue`), an
optional heading update, and the tick time. -/
structure TickInput where
  pitch : Option ℚ
  roll : Option ℚ
  yaw : Option ℚ
  heading : Option ℝ
  now : ℚ

/-- Field update semantics of `updateAttitudeFromValue` (src/index.ts:370-387):
each of pitch/roll/yaw is overwritten only when present in the incoming
value. -/
def updateField {α : Type} : Option α → Option α → Option α
  | some v, _ => some v
  | none, old => old

/-- Ingest one `TickInput` (attitude update, heading update, then
`calculateSeaState`), mirroring the delta handler at src/index.ts:345-365. -/
noncomputable def stepInput (s : PluginState) (i : TickInput) :
    PluginState × Option SeaStateResults :=
  let la := s.lastAttitude
  let la1 : LastAttitude :=
    { pitch := updateField i.pitch la.pitch
      roll := updateField i.roll la.roll
      yaw := updateField i.yaw la.yaw }
  let s1 := { s with lastAttitude := la1, lastHeading := updateField i.heading s.lastHeading }
  calculateSeaState s1 i.now

/-- The emitted results of a whole run of ticks. -/
noncomputable def runInputs : PluginState → List TickInput → List (Option SeaStateResults)
  | _, [] => []
  | s, i :: rest =>
      let p := stepInput s i
      p.2 :: runInputs p.1 rest

/-- The engine state at plugin start (src/index.ts:41-63 and 204-206): empty
buffer and histories, unknown attitude and heading, buffer capacity from the
configuration. -/
def startState (cfg : PluginConfig) : PluginState :=
  { lastAttitude := { pitch := none, roll := none, yaw := none }
    lastHeading := none
    attitudeBuffer := []
    maxBufferSize := maxBufferSizeOf cfg
    periods := []
    directionState := { directionBuffer := [], lastDirection := none, directionConfidence := 0 }
    currentConfig := cfg }

/-- Forget the yaw of a buffer entry.  Yaw is stored by the tick
(src/index.ts:674) but never read by any computation. -/
def entryEraseYaw (e : AttitudeBufferEntry) : AttitudeBufferEntry :=
  { e with yaw := none }

/-- Forget the yaw of a tick input. -/
def inputEraseYaw (i : TickInput) : TickInput :=
  { i with yaw := none }

/-- Forget every stored yaw of an engine state (buffer entries and the last
attitude). -/
def stateEraseYaw (s : PluginState) : PluginState :=
  { s with
      attitudeBuffer := s.attitudeBuffer.map entryEraseYaw
      lastAttitude := { s.lastAttitude with yaw := none } }

/-! Spec-side formulations, written from the specification's words, used to
compare against the source embedding in refinement claims. -/

/-- Spec formulation of one period scan: for each consecutive pair of
crossing times the half-period `(t2 - t1)/1000` seconds, kept exactly when it
lies in `[minimumPeriod, maximumPeriod]`, the accepted full period being two
times the half-period. -/
def specAcceptedPeriods (cfg : PluginConfig) (crossings : List ℚ) : List ℚ :=
  ((List.zipWith (fun t1 t2 => (t2 - t1) / 1000) crossings crossings.tail).filter
    (fun hp => decide (cfg.minimumPeriod ≤ hp ∧ hp ≤ cfg.maximumPeriod))).map
    (fun hp => 2 * hp)

/-- Spec formulation of the cross-correlation numerator,
`Σ (pitch_i - meanPitch) * (roll_i - meanRoll)` over paired series. -/
def specCrossNum (pitches rolls : List ℚ) : ℚ :=
  (List.zipWith (fun p r => (p - listMean pitches) * (r - listMean rolls)) pitches rolls).sum

/-- Spec formulation (as amended) of the cross-correlation:
`Σ(pitch-meanP)(roll-meanR) / (N * sqrt(varP * varR))`, without an epsilon
term. -/
noncomputable def specCrossCorrelation (pitches rolls : List ℚ) : ℝ :=
  ((specCrossNum pitches rolls : ℚ) : ℝ) /
    ((pitches.length : ℝ) * Real.sqrt ((listVariance pitches * listVariance rolls : ℚ) : ℝ))

/-- The cross-correlation formula that the claim asserts, with
`ε = 1e-10` added inside the square root of the denominator. -/
noncomputable def claimedCrossCorrelation (buffer : List AttitudeBufferEntry) : ℝ :=
  ((crossNumOf buffer : ℚ) : ℝ) /
    ((buffer.length : ℝ) *
      Real.sqrt ((pitchVarianceOf buffer * rollVarianceOf buffer + 1 / 10000000000 : ℚ) : ℝ))

/-- Normalization of an angle into `[0, 2π)`, as the specification words it
(reduction modulo `2π`). -/
noncomputable def specNormalize (x : ℝ) : ℝ :=
  x - 2 * Real.pi * ⌊x / (2 * Real.pi)⌋

/-! Concrete fixtures used by counterexamples and witnesses. -/

/-- Buffer entry with the given pitch, roll and timestamp, no yaw, and motion
magnitude 0. -/
def mkEntry (p r t : ℚ) : AttitudeBufferEntry :=
  { pitch := p, roll := r, yaw := none, timestamp := t, motionMagnitude := 0 }

/-- A configuration with the documented defaults
(`minimumPeriod = 2`, `maximumPeriod = 20`, src/index.ts:173-188). -/
def cfgDefault : PluginConfig :=
  { waveMultiplier := 1 / 2, updateRate := 1000, enableHeave := true, enablePeriod := true,
    enableDirection := true, vesselLength := 12, periodBufferSize := 30, minimumPeriod := 2,
    maximumPeriod := 20, directionSmoothing := (0.3 : ℝ) }

/-- The default configuration with `directionSmoothing = 1`. -/
noncomputable def cfgSmoothingOne : PluginConfig :=
  { cfgDefault with directionSmoothing := (1 : ℝ) }

/-- The default configuration with `directionSmoothing = 0`. -/
def cfgSmoothingZero : PluginConfig :=
  { cfgDefault with directionSmoothing := (0 : ℝ) }

/-- The neutral motion statistics record. -/
def neutralStats : MotionStatistics :=
  { pitchVariance := 0, rollVariance := 0, crossCorrelation := 0,
    dominantMotionAxis := .combined, motionPhaseShift := 0 }

/-- The empty direction state (src/index.ts:56-60). -/
def emptyDirectionState : DirectionState :=
  { directionBuffer := [], lastDirection := none, directionConfidence := 0 }

/-- Ten samples whose roll crosses zero at the second and the last entry,
20000 ms apart: the single half-period of the scan is 20 s, inside the
default `[2, 20]` window, so the scan accepts the full period 40 s. -/
def bufferLongPeriod : List AttitudeBufferEntry :=
  [mkEntry 0 (-1) 0, mkEntry 0 1 0, mkEntry 0 1 0, mkEntry 0 1 0, mkEntry 0 1 0,
   mkEntry 0 1 0, mkEntry 0 1 0, mkEntry 0 1 0, mkEntry 0 1 0, mkEntry 0 (-1) 20000]

/-- Ten pitch-dominant samples: pitch alternates `±1` (variance 1), roll is
constantly 0 (variance 0), so the variance ratio is `10^10` and the
cross-correlation numerator vanishes. -/
def bufferPitchDominant : List AttitudeBufferEntry :=
  [mkEntry 1 0 0, mkEntry (-1) 0 1, mkEntry 1 0 2, mkEntry (-1) 0 3, mkEntry 1 0 4,
   mkEntry (-1) 0 5, mkEntry 1 0 6, mkEntry (-1) 0 7, mkEntry 1 0 8, mkEntry (-1) 0 9]

/-- Five samples with pitch and roll both `[-1, 0, 0, 0, 1]`: means 0,
variances `2/5`, cross-correlation numerator 2, and
`sqrt(varP * varR) = sqrt(4/25) = 2/5` exactly. -/
def bufferEqualSeries : List AttitudeBufferEntry :=
  [mkEntry (-1) (-1) 0, mkEntry 0 0 1, mkEntry 0 0 2, mkEntry 0 0 3, mkEntry 1 1 4]

/-- A state whose buffer already holds the ten pitch-dominant samples, with
pitch and roll known but the heading unknown. -/
def stateDeepBuffer : PluginState :=
  { lastAttitude := { pitch := some 1, roll := some 1, yaw := none }
    lastHeading := none
    attitudeBuffer := bufferPitchDominant
    maxBufferSize := 30
    periods := []
    directionState := emptyDirectionState
    currentConfig := cfgDefault }

/-! Shared lemmas about the period machinery. -/

/-- Every value accepted by one period scan lies in
`[2 * minimumPeriod, 2 * maximumPeriod]`. -/
lemma mem_periodsFromCrossings (cfg : PluginConfig) :
    ∀ (crossings : List ℚ) (x : ℚ), x ∈ periodsFromCrossings cfg crossings →
      2 * cfg.minimumPeriod ≤ x ∧ x ≤ 2 * cfg.maximumPeriod := by
  intro crossings
  induction crossings with
  | nil => intro x hx; simp [periodsFromCrossings] at hx
  | cons t1 rest ih =>
    cases rest with
    | nil => intro x hx; simp [periodsFromCrossings] at hx
    | cons t2 rest2 =>
      intro x hx
      rw [periodsFromCrossings] at hx
      rcases List.mem_append.mp hx with h | h
      · by_cases hc : cfg.minimumPeriod ≤ (t2 - t1) / 1000 ∧ (t2 - t1) / 1000 ≤ cfg.maximumPeriod
        · rw [if_pos hc] at h
          rcases List.mem_singleton.mp h with rfl
          constructor <;> nlinarith [hc.1, hc.2]
        · rw [if_neg hc] at h
          simp at h
      · exact ih x h

/-- The mean of a nonempty list of rationals lies between any uniform lower
and upper bound on its members. -/
lemma listMean_mem (l : List ℚ) (hne : l ≠ []) (a b : ℚ)
    (h : ∀ x ∈ l, a ≤ x ∧ x ≤ b) : a ≤ listMean l ∧ listMean l ≤ b := by
  have hlen : 0 < l.length := List.length_pos.mpr hne
  have hlen' : (0 : ℚ) < (l.length : ℚ) := by exact_mod_cast hlen
  have hub : l.sum ≤ (l.length : ℚ) * b := by
    have := List.sum_le_card_nsmul l b (fun x hx => (h x hx).2)
    simpa [nsmul_eq_mul] using this
  have hlb : (l.length : ℚ) * a ≤ l.sum := by
    have := List.card_nsmul_le_sum l a (fun x hx => (h x hx).1)
    simpa [nsmul_eq_mul] using this
  unfold listMean
  constructor
  · rw [le_div_iff₀ hlen']
    linarith
  · rw [div_le_iff₀ hlen']
    linarith

/-- Members of a bounded push come from the old list or are the pushed
value. -/
lemma mem_pushBounded (l : List ℚ) (v : ℚ) (maxLen : ℕ) (x : ℚ)
    (hx : x ∈ pushBounded l v maxLen) : x ∈ l ∨ x = v := by
  unfold pushBounded at hx
  dsimp only at hx
  split at hx
  · have hx' : x ∈ l ++ [v] := List.mem_of_mem_tail hx
    simpa using hx'
  · simpa using hx

/-- A bounded push with positive capacity never produces the empty list. -/
lemma pushBounded_ne_nil (l : List ℚ) (v : ℚ) (maxLen : ℕ) (hpos : 0 < maxLen) :
    pushBounded l v maxLen ≠ [] := by
  unfold pushBounded
  dsimp only
  split
  · rename_i hlt
    intro hnil
    have h0 : (l ++ [v]).tail.length = 0 := by rw [hnil]; simp
    rw [List.length_tail, List.length_append] at h0
    rw [List.length_append] at hlt
    simp only [List.length_singleton] at h0 hlt
    omega
  · simp

/-- C1 counterexample evaluation: on `bufferLongPeriod` with an empty
history, one scan under the default configuration reports the period 40. -/
lemma calculatePeriod_bufferLongPeriod :
    calculatePeriod bufferLongPeriod [] cfgDefault = (some 40, [40]) := by
  norm_num [calculatePeriod, bufferLongPeriod, zeroCrossingTimes, mkEntry, periodsFromCrossings,
    cfgDefault, pushBounded, listMean]

/-- C1 (counterexample): the claim "any reported period lies in
`[minimumPeriod, maximumPeriod]`" is false: under the default configuration
(with `minimumPeriod = 2 < 20 = maximumPeriod`), starting from the empty
period history, the scan of `bufferLongPeriod` reports a period of 40
seconds, above `maximumPeriod = 20` (a half-period of 20 s passes the filter
and is then doubled, src/index.ts:631-632). -/
theorem calculatePeriod_not_within_configured_range :
    cfgDefault.minimumPeriod < cfgDefault.maximumPeriod ∧
    (calculatePeriod bufferLongPeriod [] cfgDefault).1 = some 40 ∧
    ¬ ((40 : ℚ) ≤ cfgDefault.maximumPeriod) := by
  refine ⟨by decide, ?_, by decide⟩
  rw [calculatePeriod_bufferLongPeriod]

/-- C1 (amended): whenever every entry of the incoming period history lies in
`[2 * minimumPeriod, 2 * maximumPeriod]` (as holds from the empty initial
history onwards), a non-absent reported period lies in
`[2 * minimumPeriod, 2 * maximumPeriod]`, and the updated history satisfies
the same bound. -/
theorem calculatePeriod_range (buffer : List AttitudeBufferEntry) (periods : List ℚ)
    (cfg : PluginConfig) (_hmm : cfg.minimumPeriod < cfg.maximumPeriod)
    (hinv : ∀ q ∈ periods, 2 * cfg.minimumPeriod ≤ q ∧ q ≤ 2 * cfg.maximumPeriod) :
    (∀ p : ℚ, (calculatePeriod buffer periods cfg).1 = some p →
      2 * cfg.minimumPeriod ≤ p ∧ p ≤ 2 * cfg.maximumPeriod) ∧
    (∀ q ∈ (calculatePeriod buffer periods cfg).2,
      2 * cfg.minimumPeriod ≤ q ∧ q ≤ 2 * cfg.maximumPeriod) := by
  unfold calculatePeriod
  dsimp only
  split
  · exact ⟨fun p hp => by simp at hp, hinv⟩
  · split
    · exact ⟨fun p hp => by simp at hp, hinv⟩
    · split
      · exact ⟨fun p hp => by simp at hp, hinv⟩
      · rename_i hne10 hne2 hnonempty
        set currentPeriods := periodsFromCrossings cfg (zeroCrossingTimes buffer) with hcp
        have haccept : ∀ x ∈ currentPeriods,
            2 * cfg.minimumPeriod ≤ x ∧ x ≤ 2 * cfg.maximumPeriod :=
          fun x hx => mem_periodsFromCrossings cfg _ x hx
        have havg := listMean_mem currentPeriods hnonempty _ _ haccept
        have hmem1 : ∀ q ∈ pushBounded periods (listMean currentPeriods) 10,
            2 * cfg.minimumPeriod ≤ q ∧ q ≤ 2 * cfg.maximumPeriod := by
          intro q hq
          rcases mem_pushBounded _ _ _ q hq with h | rfl
          · exact hinv q h
          · exact havg
        have hne1 : pushBounded periods (listMean currentPeriods) 10 ≠ [] :=
          pushBounded_ne_nil _ _ _ (by omega)
        have hmean := listMean_mem _ hne1 _ _ hmem1
        refine ⟨fun p hp => ?_, hmem1⟩
        simp only [Option.some.injEq] at hp
        simpa [← hp] using hmean

/-- Witness for `calculatePeriod_range`: the default configuration and the
empty initial history satisfy its hypotheses, at `bufferLongPeriod`. -/
theorem calculatePeriod_range_witness :
    (cfgDefault.minimumPeriod < cfgDefault.maximumPeriod ∧
      (∀ q ∈ ([] : List ℚ),
        2 * cfgDefault.minimumPeriod ≤ q ∧ q ≤ 2 * cfgDefault.maximumPeriod)) ∧
    ((∀ p : ℚ, (calculatePeriod bufferLongPeriod [] cfgDefault).1 = some p →
        2 * cfgDefault.minimumPeriod ≤ p ∧ p ≤ 2 * cfgDefault.maximumPeriod) ∧
      (∀ q ∈ (calculatePeriod bufferLongPeriod [] cfgDefault).2,
        2 * cfgDefault.minimumPeriod ≤ q ∧ q ≤ 2 * cfgDefault.maximumPeriod)) :=
  ⟨⟨by decide, by simp⟩,
    calculatePeriod_range bufferLongPeriod [] cfgDefault (by decide) (by simp)⟩

/-- One period scan accepts exactly the pairs whose half-period passes the
window filter: the source traversal agrees with the specification-side
zip-filter-map formulation. -/
lemma periodsFromCrossings_eq_spec (cfg : PluginConfig) :
    ∀ crossings : List ℚ, periodsFromCrossings cfg crossings = specAcceptedPeriods cfg crossings := by
  intro crossings
  induction crossings with
  | nil => simp [periodsFromCrossings, specAcceptedPeriods]
  | cons t1 rest ih =>
    cases rest with
    | nil => simp [periodsFromCrossings, specAcceptedPeriods]
    | cons t2 rest2 =>
      rw [periodsFromCrossings, ih]
      unfold specAcceptedPeriods
      by_cases hc : cfg.minimumPeriod ≤ (t2 - t1) / 1000 ∧ (t2 - t1) / 1000 ≤ cfg.maximumPeriod
      · simp [hc, List.filter, mul_comm]
      · simp [hc, List.filter]

/-- C3 (confirmed): for a buffer of length at least 10, the period
computation accepts, for each consecutive pair of detected zero crossings,
exactly the half-periods `(t2 - t1)/1000` inside
`[minimumPeriod, maximumPeriod]`, doubled to full periods
(`specAcceptedPeriods`); when no value is accepted the result is absent and
the history is unchanged, and otherwise the scan average is pushed into the
history (bounded at 10, oldest evicted) and the reported value is the mean
of the updated history. -/
theorem calculatePeriod_characterization (buffer : List AttitudeBufferEntry)
    (periods : List ℚ) (cfg : PluginConfig) (hlen : 10 ≤ buffer.length) :
    (specAcceptedPeriods cfg (zeroCrossingTimes buffer) = [] →
      calculatePeriod buffer periods cfg = (none, periods)) ∧
    (specAcceptedPeriods cfg (zeroCrossingTimes buffer) ≠ [] →
      calculatePeriod buffer periods cfg =
        (some (listMean (pushBounded periods
            (listMean (specAcceptedPeriods cfg (zeroCrossingTimes buffer))) 10)),
          pushBounded periods
            (listMean (specAcceptedPeriods cfg (zeroCrossingTimes buffer))) 10)) := by
  have hnot : ¬ buffer.length < 10 := by omega
  constructor
  · intro hempty
    unfold calculatePeriod
    dsimp only
    rw [if_neg hnot]
    split
    · rfl
    · rw [periodsFromCrossings_eq_spec cfg _, hempty]
      simp
  · intro hne
    have hlen2 : ¬ (zeroCrossingTimes buffer).length < 2 := by
      intro hlt
      apply hne
      unfold specAcceptedPeriods
      rcases hzc : zeroCrossingTimes buffer with _ | ⟨t1, _ | ⟨t2, rest⟩⟩
      · simp [specAcceptedPeriods]
      · simp [specAcceptedPeriods]
      · rw [hzc] at hlt
        simp at hlt
        omega
    unfold calculatePeriod
    dsimp only
    rw [if_neg hnot, if_neg hlen2, periodsFromCrossings_eq_spec cfg _, if_neg hne]

/-- Witness for `calculatePeriod_characterization` at a concrete buffer of
length 10. -/
theorem calculatePeriod_characterization_witness :
    10 ≤ bufferLongPeriod.length ∧
    ((specAcceptedPeriods cfgDefault (zeroCrossingTimes bufferLongPeriod) = [] →
      calculatePeriod bufferLongPeriod [] cfgDefault = (none, [])) ∧
    (specAcceptedPeriods cfgDefault (zeroCrossingTimes bufferLongPeriod) ≠ [] →
      calculatePeriod bufferLongPeriod [] cfgDefault =
        (some (listMean (pushBounded []
            (listMean (specAcceptedPeriods cfgDefault (zeroCrossingTimes bufferLongPeriod))) 10)),
          pushBounded []
            (listMean (specAcceptedPeriods cfgDefault (zeroCrossingTimes bufferLongPeriod))) 10))) :=
  ⟨by decide, calculatePeriod_characterization bufferLongPeriod [] cfgDefault (by decide)⟩

/-! Lemmas about the motion statistics. -/

/-- Zipping the pitch and roll projections of a buffer is the same as
traversing the buffer once. -/
lemma zipWith_pitch_roll (f : ℚ → ℚ → ℚ) :
    ∀ buffer : List AttitudeBufferEntry,
      List.zipWith f (pitchVals buffer) (rollVals buffer) =
        buffer.map (fun e => f e.pitch e.roll) := by
  intro buffer
  induction buffer with
  | nil => simp [pitchVals, rollVals]
  | cons e rest ih => simp [pitchVals, rollVals] at ih ⊢

/-- The source's indexed cross-correlation numerator equals the
specification's zipped formulation. -/
lemma crossNumOf_eq_spec (buffer : List AttitudeBufferEntry) :
    crossNumOf buffer = specCrossNum (pitchVals buffer) (rollVals buffer) := by
  unfold crossNumOf specCrossNum
  rw [zipWith_pitch_roll]

/-- A list whose sum of squared deviations from `m` vanishes is constantly
`m`. -/
lemma eq_of_sum_sq_eq_zero (m : ℚ) :
    ∀ l : List ℚ, (l.map (fun v => (v - m) ^ 2)).sum = 0 → ∀ x ∈ l, x = m := by
  intro l
  induction l with
  | nil => intro _ x hx; simp at hx
  | cons a rest ih =>
    intro hsum x hx
    rw [List.map_cons, List.sum_cons] at hsum
    have hrest : 0 ≤ (rest.map (fun v => (v - m) ^ 2)).sum :=
      List.sum_nonneg (by intro y hy; rcases List.mem_map.mp hy with ⟨v, _, rfl⟩; positivity)
    have ha : (a - m) ^ 2 = 0 := by nlinarith [sq_nonneg (a - m)]
    rcases List.mem_cons.mp hx with rfl | hx'
    · have h0 : x - m = 0 := sq_eq_zero_iff.mp ha
      linarith
    · exact ih (by nlinarith [sq_nonneg (a - m)]) x hx'

/-- The cross-correlation numerator vanishes whenever the variance product
does, which is why the `isNaN` guard of src/index.ts:461 coincides with the
zero-denominator convention of the embedding. -/
lemma crossNumOf_eq_zero_of_varProd_eq_zero (buffer : List AttitudeBufferEntry)
    (h : pitchVarianceOf buffer * rollVarianceOf buffer = 0) : crossNumOf buffer = 0 := by
  by_cases hb : buffer = []
  · simp [hb, crossNumOf]
  · have hlen : buffer.length ≠ 0 := by simpa [List.length_eq_zero] using hb
    have hlenq : ((pitchVals buffer).length : ℚ) ≠ 0 := by
      have h1 : (pitchVals buffer).length = buffer.length := by simp [pitchVals]
      rw [h1]
      exact_mod_cast hlen
    have hlenr : ((rollVals buffer).length : ℚ) ≠ 0 := by
      have h1 : (rollVals buffer).length = buffer.length := by simp [rollVals]
      rw [h1]
      exact_mod_cast hlen
    apply List.sum_eq_zero
    intro x hx
    rcases List.mem_map.mp hx with ⟨e, he, rfl⟩
    rcases mul_eq_zero.mp h with hvar | hvar
    · have hsum : ((pitchVals buffer).map
          (fun v => (v - listMean (pitchVals buffer)) ^ 2)).sum = 0 := by
        unfold pitchVarianceOf listVariance at hvar
        rcases div_eq_zero_iff.mp hvar with h0 | h0
        · exact h0
        · exact absurd h0 hlenq
      have hp : e.pitch = listMean (pitchVals buffer) :=
        eq_of_sum_sq_eq_zero _ _ hsum e.pitch (List.mem_map.mpr ⟨e, he, rfl⟩)
      rw [hp]
      ring
    · have hsum : ((rollVals buffer).map
          (fun v => (v - listMean (rollVals buffer)) ^ 2)).sum = 0 := by
        unfold rollVarianceOf listVariance at hvar
        rcases div_eq_zero_iff.mp hvar with h0 | h0
        · exact h0
        · exact absurd h0 hlenr
      have hr : e.roll = listMean (rollVals buffer) :=
        eq_of_sum_sq_eq_zero _ _ hsum e.roll (List.mem_map.mpr ⟨e, he, rfl⟩)
      rw [hr]
      ring

/-- C2 (amended): for buffers of length at least 5, the cross-correlation of
the motion statistics equals
`Σ(pitch-meanP)(roll-meanR) / (N * sqrt(pitchVariance * rollVariance))`,
with no epsilon term in the denominator, and it is forced to 0 whenever the
variance product vanishes (the not-a-number case). -/
theorem crossCorrelation_formula (buffer : List AttitudeBufferEntry) (cfg : PluginConfig)
    (h5 : 5 ≤ buffer.length) :
    (calculateMotionStatistics buffer cfg).crossCorrelation =
      specCrossCorrelation (pitchVals buffer) (rollVals buffer) ∧
    (pitchVarianceOf buffer * rollVarianceOf buffer = 0 →
      (calculateMotionStatistics buffer cfg).crossCorrelation = 0) := by
  have hnot : ¬ buffer.length < 5 := by omega
  rw [calculateMotionStatistics, if_neg hnot]
  constructor
  · show crossCorrelationOf buffer = _
    unfold crossCorrelationOf specCrossCorrelation
    rw [crossNumOf_eq_spec]
    have hlen : (pitchVals buffer).length = buffer.length := by
      simp [pitchVals, List.length_map]
    rw [hlen]
    rfl
  · intro h
    show crossCorrelationOf buffer = 0
    unfold crossCorrelationOf
    rw [h]
    push_cast
    rw [Real.sqrt_zero]
    simp

/-- Witness for `crossCorrelation_formula` at a concrete buffer of
length 5. -/
theorem crossCorrelation_formula_witness :
    5 ≤ bufferEqualSeries.length ∧
    ((calculateMotionStatistics bufferEqualSeries cfgDefault).crossCorrelation =
      specCrossCorrelation (pitchVals bufferEqualSeries) (rollVals bufferEqualSeries) ∧
    (pitchVarianceOf bufferEqualSeries * rollVarianceOf bufferEqualSeries = 0 →
      (calculateMotionStatistics bufferEqualSeries cfgDefault).crossCorrelation = 0)) :=
  ⟨by decide, crossCorrelation_formula bufferEqualSeries cfgDefault (by decide)⟩

/-- C2 (counterexample): the claimed formula has `ε = 1e-10` inside the
square root of the denominator, but the code has none
(src/index.ts:419-421): on `bufferEqualSeries` the code computes exactly
`2 / (5 * sqrt(4/25)) = 1` while the claimed formula gives a value strictly
below 1. -/
theorem crossCorrelation_epsilon_refuted :
    5 ≤ bufferEqualSeries.length ∧
    (calculateMotionStatistics bufferEqualSeries cfgDefault).crossCorrelation ≠
      claimedCrossCorrelation bufferEqualSeries := by
  refine ⟨by decide, ?_⟩
  have hnum : crossNumOf bufferEqualSeries = 2 := by
    norm_num [crossNumOf, bufferEqualSeries, mkEntry, listMean, pitchVals, rollVals]
  have hvarp : pitchVarianceOf bufferEqualSeries = 2 / 5 := by
    norm_num [pitchVarianceOf, listVariance, bufferEqualSeries, mkEntry, listMean, pitchVals]
  have hvarr : rollVarianceOf bufferEqualSeries = 2 / 5 := by
    norm_num [rollVarianceOf, listVariance, bufferEqualSeries, mkEntry, listMean, rollVals]
  have hlen : (bufferEqualSeries.length : ℝ) = 5 := by
    norm_num [bufferEqualSeries]
  have hsq : Real.sqrt ((2 / 5 * (2 / 5) : ℚ) : ℝ) = 2 / 5 := by
    have h1 : (((2 / 5 * (2 / 5) : ℚ)) : ℝ) = (2 / 5 : ℝ) ^ 2 := by push_cast; ring
    rw [h1, Real.sqrt_sq (by norm_num)]
  have hcode : (calculateMotionStatistics bufferEqualSeries cfgDefault).crossCorrelation = 1 := by
    have hnot : ¬ bufferEqualSeries.length < 5 := by decide
    rw [calculateMotionStatistics, if_neg hnot]
    show crossCorrelationOf bufferEqualSeries = 1
    unfold crossCorrelationOf
    rw [hnum, hvarp, hvarr, hlen, hsq]
    norm_num
  have hclaim : claimedCrossCorrelation bufferEqualSeries < 1 := by
    unfold claimedCrossCorrelation
    rw [hnum, hvarp, hvarr, hlen]
    have harg : ((2 / 5 * (2 / 5) + 1 / 10000000000 : ℚ) : ℝ) =
        4 / 25 + 1 / 10000000000 := by push_cast; ring
    rw [harg]
    have h25 : Real.sqrt (4 / 25) = 2 / 5 := by
      have h1 : ((4 : ℝ) / 25) = (2 / 5 : ℝ) ^ 2 := by ring
      rw [h1, Real.sqrt_sq (by norm_num)]
    have hgt : (2 : ℝ) / 5 < Real.sqrt (4 / 25 + 1 / 10000000000) := by
      rw [← h25]
      exact Real.sqrt_lt_sqrt (by norm_num) (by norm_num)
    have hpos : (0 : ℝ) < 5 * Real.sqrt (4 / 25 + 1 / 10000000000) := by nlinarith
    rw [div_lt_one hpos]
    push_cast
    nlinarith
  rw [hcode]
  intro heq
  rw [← heq] at hclaim
  exact lt_irrefl 1 hclaim

/-- C9 (confirmed): the heave computation returns exactly
`vesselLength * sin(pitch)` for every pitch and vessel length, and in
particular heave 0 at pitch 0. -/
theorem calculateHeave_formula (pitchRad vesselLength : ℝ) :
    calculateHeave pitchRad vesselLength = vesselLength * Real.sin pitchRad ∧
    calculateHeave 0 vesselLength = 0 := by
  refine ⟨rfl, ?_⟩
  unfold calculateHeave
  simp

/-! Lemmas about the sample buffer. -/

/-- A single bounded push keeps the length within the capacity. -/
lemma pushEntry_length_le (buf : List AttitudeBufferEntry) (e : AttitudeBufferEntry)
    (m : ℤ) (h : (buf.length : ℤ) ≤ m) : ((pushEntry buf e m).length : ℤ) ≤ m := by
  unfold pushEntry
  dsimp only
  split
  · rename_i hgt
    rw [List.length_tail]
    rw [List.length_append] at hgt ⊢
    simp only [List.length_singleton] at hgt ⊢
    push_cast at hgt ⊢
    omega
  · rename_i hle
    omega

/-- The result of a bounded push is a suffix of the appended list. -/
lemma pushEntry_suffix (buf : List AttitudeBufferEntry) (e : AttitudeBufferEntry) (m : ℤ) :
    pushEntry buf e m <:+ buf ++ [e] := by
  unfold pushEntry
  dsimp only
  split
  · exact (buf ++ [e]).tail_suffix
  · exact List.suffix_refl _

/-- Folding bounded pushes over an input list yields a suffix of the
initial buffer followed by the inputs. -/
lemma foldl_pushEntry_suffix (m : ℤ) :
    ∀ (entries : List AttitudeBufferEntry) (buf : List AttitudeBufferEntry),
      entries.foldl (fun b e => pushEntry b e m) buf <:+ buf ++ entries := by
  intro entries
  induction entries with
  | nil => intro buf; simp
  | cons e rest ih =>
    intro buf
    rw [List.foldl_cons]
    have h1 := ih (pushEntry buf e m)
    have h2 : pushEntry buf e m ++ rest <:+ (buf ++ [e]) ++ rest := by
      rcases pushEntry_suffix buf e m with ⟨t, ht⟩
      exact ⟨t, by rw [← List.append_assoc, ht]⟩
    have h3 : (buf ++ [e]) ++ rest = buf ++ (e :: rest) := by simp
    rw [h3] at h2
    exact h1.trans h2

/-- C6 (confirmed): with capacity
`maxBufferSize = ceil(periodBufferSize * 1000 / updateRate)` and a positive
configuration, (1) starting from the empty buffer, after any sequence of
pushes the buffer length never exceeds the capacity; (2) if the pushed
entries have non-decreasing timestamps then so has the resulting buffer;
(3) a push onto a full buffer evicts exactly the oldest entry. -/
theorem sampleBuffer_invariants (cfg : PluginConfig)
    (hur : 0 < cfg.updateRate) (hpb : 0 < cfg.periodBufferSize) :
    (∀ entries : List AttitudeBufferEntry,
      (((entries.foldl (fun b e => pushEntry b e (maxBufferSizeOf cfg)) []).length : ℤ) ≤
        maxBufferSizeOf cfg)) ∧
    (∀ entries : List AttitudeBufferEntry,
      List.Chain' (fun a b => a.timestamp ≤ b.timestamp) entries →
      List.Chain' (fun a b => a.timestamp ≤ b.timestamp)
        (entries.foldl (fun b e => pushEntry b e (maxBufferSizeOf cfg)) [])) ∧
    (∀ (buf : List AttitudeBufferEntry) (e : AttitudeBufferEntry),
      (buf.length : ℤ) = maxBufferSizeOf cfg →
      pushEntry buf e (maxBufferSizeOf cfg) = buf.tail ++ [e]) := by
  have hcap : 0 < maxBufferSizeOf cfg := by
    unfold maxBufferSizeOf
    rw [Int.ceil_pos]
    positivity
  refine ⟨?_, ?_, ?_⟩
  · intro entries
    have hgen : ∀ (es : List AttitudeBufferEntry) (buf : List AttitudeBufferEntry),
        (buf.length : ℤ) ≤ maxBufferSizeOf cfg →
        (((es.foldl (fun b e => pushEntry b e (maxBufferSizeOf cfg)) buf).length : ℤ) ≤
          maxBufferSizeOf cfg) := by
      intro es
      induction es with
      | nil => intro buf h; simpa using h
      | cons e rest ih =>
        intro buf h
        rw [List.foldl_cons]
        exact ih _ (pushEntry_length_le buf e _ h)
    exact hgen entries [] (by simpa using hcap.le)
  · intro entries hchain
    have hsuffix := foldl_pushEntry_suffix (maxBufferSizeOf cfg) entries []
    rw [List.nil_append] at hsuffix
    exact hchain.suffix hsuffix
  · intro buf e hfull
    unfold pushEntry
    dsimp only
    rw [if_pos (by rw [List.length_append, List.length_singleton]; push_cast; omega)]
    have hne : buf ≠ [] := by
      intro h
      rw [h] at hfull
      simp at hfull
      omega
    rcases List.exists_cons_of_ne_nil hne with ⟨a, t, rfl⟩
    simp

/-- Witness for `sampleBuffer_invariants` at the default configuration. -/
theorem sampleBuffer_invariants_witness :
    ((0 : ℚ) < cfgDefault.updateRate ∧ (0 : ℚ) < cfgDefault.periodBufferSize) ∧
    ((∀ entries : List AttitudeBufferEntry,
      (((entries.foldl (fun b e => pushEntry b e (maxBufferSizeOf cfgDefault)) []).length : ℤ) ≤
        maxBufferSizeOf cfgDefault)) ∧
    (∀ entries : List AttitudeBufferEntry,
      List.Chain' (fun a b => a.timestamp ≤ b.timestamp) entries →
      List.Chain' (fun a b => a.timestamp ≤ b.timestamp)
        (entries.foldl (fun b e => pushEntry b e (maxBufferSizeOf cfgDefault)) [])) ∧
    (∀ (buf : List AttitudeBufferEntry) (e : AttitudeBufferEntry),
      (buf.length : ℤ) = maxBufferSizeOf cfgDefault →
      pushEntry buf e (maxBufferSizeOf cfgDefault) = buf.tail ++ [e])) :=
  ⟨⟨by decide, by decide⟩, sampleBuffer_invariants cfgDefault (by decide) (by decide)⟩

/-! Lemmas about the direction machinery. -/

/-- `Math.atan2` yields values in `(-π, π]`. -/
lemma atan2_mem (y x : ℝ) : -Real.pi < atan2 y x ∧ atan2 y x ≤ Real.pi := by
  have hpi := Real.pi_pos
  have harctan_lt : ∀ t : ℝ, Real.arctan t < Real.pi / 2 := Real.arctan_lt_pi_div_two
  have harctan_gt : ∀ t : ℝ, -(Real.pi / 2) < Real.arctan t := Real.neg_pi_div_two_lt_arctan
  unfold atan2
  split_ifs with hx hx2 hy hy2 hy3
  · exact ⟨by linarith [harctan_gt (y / x)], by linarith [harctan_lt (y / x)]⟩
  · have hyx : y / x ≤ 0 := div_nonpos_iff.mpr (Or.inl ⟨hy, hx2.le⟩)
    have h0 : Real.arctan (y / x) ≤ 0 := by
      have := Real.arctan_strictMono.monotone hyx
      rwa [Real.arctan_zero] at this
    exact ⟨by linarith [harctan_gt (y / x)], by linarith⟩
  · have hyx : 0 < y / x := div_pos_of_neg_of_neg (by linarith) hx2
    have h0 : 0 < Real.arctan (y / x) := by
      have := Real.arctan_strictMono hyx
      rwa [Real.arctan_zero] at this
    exact ⟨by linarith, by linarith [harctan_lt (y / x)]⟩
  · exact ⟨by linarith, by linarith⟩
  · exact ⟨by linarith, by linarith⟩
  · exact ⟨by linarith, by linarith⟩

/-- The direction normalization keeps values of `(-2π, 4π)` inside
`[0, 2π)`. -/
lemma wrapDirection_mem (x : ℝ) (h1 : -(2 * Real.pi) < x) (h2 : x < 4 * Real.pi) :
    0 ≤ wrapDirection x ∧ wrapDirection x < 2 * Real.pi := by
  have hpi := Real.pi_pos
  unfold wrapDirection
  dsimp only
  split_ifs <;> constructor <;> linarith

/-- The direction normalization fixes values already inside `[0, 2π)`. -/
lemma wrapDirection_eq_self (x : ℝ) (h0 : 0 ≤ x) (h2 : x < 2 * Real.pi) :
    wrapDirection x = x := by
  unfold wrapDirection
  dsimp only
  rw [if_neg (not_le.mpr h2)]
  rw [if_neg (not_lt.mpr h0)]

/-- The angle-difference wrap maps `(-2π, 2π)` into `[-π, π]`. -/
lemma wrapDelta_mem (x : ℝ) (h1 : -(2 * Real.pi) < x) (h2 : x < 2 * Real.pi) :
    -Real.pi ≤ wrapDelta x ∧ wrapDelta x ≤ Real.pi := by
  have hpi := Real.pi_pos
  unfold wrapDelta
  dsimp only
  split_ifs <;> constructor <;> linarith

/-- The angle-difference wrap is a shift by a multiple of `2π`. -/
lemma wrapDelta_shift (x : ℝ) :
    wrapDelta x = x ∨ wrapDelta x = x - 2 * Real.pi ∨ wrapDelta x = x + 2 * Real.pi := by
  unfold wrapDelta
  dsimp only
  split_ifs with h1 h2 h3
  · left; ring
  · right; left; rfl
  · right; right; rfl
  · left; rfl

/-- The direction normalization collapses the three `2π`-shifts of a value
of `[0, 2π)` back to that value. -/
lemma wrapDirection_shifts (a : ℝ) (h0 : 0 ≤ a) (h2 : a < 2 * Real.pi) :
    wrapDirection a = a ∧ wrapDirection (a - 2 * Real.pi) = a ∧
      wrapDirection (a + 2 * Real.pi) = a := by
  have hpi := Real.pi_pos
  refine ⟨wrapDirection_eq_self a h0 h2, ?_, ?_⟩
  · unfold wrapDirection
    dsimp only
    rw [if_neg (show ¬ 2 * Real.pi ≤ a - 2 * Real.pi by linarith)]
    rw [if_pos (show a - 2 * Real.pi < 0 by linarith)]
    ring
  · unfold wrapDirection
    dsimp only
    rw [if_pos (show 2 * Real.pi ≤ a + 2 * Real.pi by linarith)]
    rw [if_neg (show ¬ a + 2 * Real.pi - 2 * Real.pi < 0 by linarith)]
    ring

/-- The single-step normalization agrees with true reduction modulo `2π` on
`[0, 4π)`. -/
lemma wrapDirection_eq_specNormalize (x : ℝ) (h0 : 0 ≤ x) (h4 : x < 4 * Real.pi) :
    wrapDirection x = specNormalize x := by
  have hpi := Real.pi_pos
  have h2pi : (0 : ℝ) < 2 * Real.pi := by linarith
  unfold wrapDirection specNormalize
  dsimp only
  by_cases hx : 2 * Real.pi ≤ x
  · rw [if_pos hx, if_neg (by linarith)]
    have hfloor : ⌊x / (2 * Real.pi)⌋ = 1 := by
      rw [Int.floor_eq_iff]
      constructor
      · rw [Int.cast_one, le_div_iff₀ h2pi]
        linarith
      · rw [Int.cast_one, div_lt_iff₀ h2pi]
        linarith
    rw [hfloor]
    push_cast
    ring
  · rw [if_neg hx, if_neg (by linarith)]
    have hfloor : ⌊x / (2 * Real.pi)⌋ = 0 := by
      rw [Int.floor_eq_iff]
      constructor
      · rw [Int.cast_zero]
        positivity
      · rw [Int.cast_zero, zero_add, div_lt_one h2pi]
        linarith
    rw [hfloor]
    push_cast
    ring

/-- Every direction produced by `calculateRelativeWaveDirection` lies in
`[0, 2π)`. -/
lemma relativeDirection_mem (buffer : List AttitudeBufferEntry) (stats : MotionStatistics)
    (rel : ℝ) (h : calculateRelativeWaveDirection buffer stats = some rel) :
    0 ≤ rel ∧ rel < 2 * Real.pi := by
  have hpi := Real.pi_pos
  unfold calculateRelativeWaveDirection at h
  by_cases hlen : buffer.length < 10
  · rw [if_pos hlen] at h
    exact absurd h (by simp)
  · rw [if_neg hlen] at h
    dsimp only at h
    rw [Option.some_inj] at h
    subst h
    set r0 : ℝ := match stats.dominantMotionAxis with
      | .pitch => if 0 < stats.crossCorrelation then 0 else Real.pi
      | .roll => if 0 < stats.crossCorrelation then Real.pi / 2 else 3 * Real.pi / 2
      | .combined =>
        let recentBuffer := buffer.drop (buffer.length - 10)
        let sums := recentBuffer.foldl
          (fun s e =>
            (s.1 + Real.cos (atan2 (e.roll : ℝ) (e.pitch : ℝ)) * e.motionMagnitude,
             s.2 + Real.sin (atan2 (e.roll : ℝ) (e.pitch : ℝ)) * e.motionMagnitude))
          ((0 : ℝ), (0 : ℝ))
        atan2 sums.2 sums.1 with hr0
    have hb : -Real.pi < r0 ∧ r0 < 2 * Real.pi := by
      rw [hr0]
      rcases stats.dominantMotionAxis
      · dsimp only
        split_ifs <;> constructor <;> linarith
      · dsimp only
        split_ifs <;> constructor <;> linarith
      · dsimp only
        have hm := atan2_mem
          ((buffer.drop (buffer.length - 10)).foldl
            (fun s e =>
              (s.1 + Real.cos (atan2 (e.roll : ℝ) (e.pitch : ℝ)) * e.motionMagnitude,
               s.2 + Real.sin (atan2 (e.roll : ℝ) (e.pitch : ℝ)) * e.motionMagnitude))
            ((0 : ℝ), (0 : ℝ))).2
          ((buffer.drop (buffer.length - 10)).foldl
            (fun s e =>
              (s.1 + Real.cos (atan2 (e.roll : ℝ) (e.pitch : ℝ)) * e.motionMagnitude,
               s.2 + Real.sin (atan2 (e.roll : ℝ) (e.pitch : ℝ)) * e.motionMagnitude))
            ((0 : ℝ), (0 : ℝ))).1
        exact ⟨hm.1, by linarith [hm.2]⟩
    split_ifs with hneg
    · constructor <;> linarith [hb.1, hb.2]
    · exact ⟨by linarith, hb.2⟩

/-- A clamped confidence value is in `[0, 1]` whenever the variance term is
nonnegative. -/
lemma confidence_clamped_mem (v : ℝ) (hv : 0 ≤ v) :
    0 ≤ max 0 (1 - v / (Real.pi * Real.pi / 4)) ∧
      max 0 (1 - v / (Real.pi * Real.pi / 4)) ≤ 1 := by
  have hpi := Real.pi_pos
  constructor
  · exact le_max_left 0 _
  · apply max_le (by norm_num)
    have hc : (0 : ℝ) < Real.pi * Real.pi / 4 := by positivity
    have := div_nonneg hv hc.le
    linarith

/-- The confidence update keeps the confidence inside `[0, 1]`. -/
lemma directionConfidenceOf_mem (dirs : List ℝ) (old : ℝ)
    (h0 : 0 ≤ old) (h1 : old ≤ 1) :
    0 ≤ directionConfidenceOf dirs old ∧ directionConfidenceOf dirs old ≤ 1 := by
  unfold directionConfidenceOf
  dsimp only
  split
  · apply confidence_clamped_mem
    apply div_nonneg
    · apply List.sum_nonneg
      intro a ha
      rcases List.mem_map.mp ha with ⟨d, _, rfl⟩
      exact mul_self_nonneg _
    · positivity
  · exact ⟨h0, h1⟩

/-- C4 (amended): whenever the last known heading lies in `[0, 2π)`, the
smoothing factor lies in `[0, 1]`, the previously stored direction (if any)
lies in `[0, 2π)` and the stored confidence lies in `[0, 1]` (all of which
hold along any run from the initial state under a schema-conforming
configuration), every direction produced by the direction computation lies
in `[0, 2π)` and the updated confidence lies in `[0, 1]`. -/
theorem direction_confidence_range (buffer : List AttitudeBufferEntry)
    (stats : MotionStatistics) (heading : ℝ) (dirState : DirectionState)
    (cfg : PluginConfig)
    (hh0 : 0 ≤ heading) (hh1 : heading < 2 * Real.pi)
    (hs0 : 0 ≤ cfg.directionSmoothing) (hs1 : cfg.directionSmoothing ≤ 1)
    (hlast : ∀ d, dirState.lastDirection = some d → 0 ≤ d ∧ d < 2 * Real.pi)
    (hc0 : 0 ≤ dirState.directionConfidence) (hc1 : dirState.directionConfidence ≤ 1) :
    (∀ dir,
      (calculateAbsoluteWaveDirection buffer stats (some heading) dirState cfg).1 = some dir →
      0 ≤ dir ∧ dir < 2 * Real.pi) ∧
    (0 ≤ (calculateAbsoluteWaveDirection buffer stats
        (some heading) dirState cfg).2.directionConfidence ∧
      (calculateAbsoluteWaveDirection buffer stats
        (some heading) dirState cfg).2.directionConfidence ≤ 1) := by
  have hpi := Real.pi_pos
  unfold calculateAbsoluteWaveDirection
  cases hrel : calculateRelativeWaveDirection buffer stats with
  | none =>
    dsimp only
    exact ⟨fun dir hdir => by simp at hdir, hc0, hc1⟩
  | some rel =>
    have hrelmem := relativeDirection_mem buffer stats rel hrel
    dsimp only
    have habs := wrapDirection_mem (rel + heading) (by linarith [hrelmem.1])
      (by linarith [hrelmem.2])
    have hsm : 0 ≤ (match dirState.lastDirection with
        | none => wrapDirection (rel + heading)
        | some lastDir => wrapDirection (lastDir + cfg.directionSmoothing *
            wrapDelta (wrapDirection (rel + heading) - lastDir))) ∧
        (match dirState.lastDirection with
        | none => wrapDirection (rel + heading)
        | some lastDir => wrapDirection (lastDir + cfg.directionSmoothing *
            wrapDelta (wrapDirection (rel + heading) - lastDir))) < 2 * Real.pi := by
      cases hld : dirState.lastDirection with
      | none => exact habs
      | some lastDir =>
        have hl := hlast lastDir hld
        have hdel := wrapDelta_mem (wrapDirection (rel + heading) - lastDir)
          (by linarith [habs.1, hl.2]) (by linarith [habs.2, hl.1])
        have hsd : -Real.pi ≤ cfg.directionSmoothing *
            wrapDelta (wrapDirection (rel + heading) - lastDir) ∧
            cfg.directionSmoothing *
              wrapDelta (wrapDirection (rel + heading) - lastDir) ≤ Real.pi := by
          by_cases hd : 0 ≤ wrapDelta (wrapDirection (rel + heading) - lastDir)
          · constructor
            · have := mul_nonneg hs0 hd
              linarith
            · have h1 := mul_le_mul_of_nonneg_right hs1 hd
              rw [one_mul] at h1
              linarith [hdel.2]
          · push_neg at hd
            constructor
            · have h1 := mul_le_mul_of_nonpos_right hs1 hd.le
              rw [one_mul] at h1
              linarith [hdel.1]
            · have := mul_nonpos_of_nonneg_of_nonpos hs0 hd.le
              linarith
        exact wrapDirection_mem _ (by linarith [hl.1, hsd.1]) (by linarith [hl.2, hsd.2])
    constructor
    · intro dir hdir
      rw [Option.some_inj] at hdir
      rw [hdir] at hsm
      exact hsm
    · exact directionConfidenceOf_mem _ _ hc0 hc1

/-- The cross-correlation of `bufferPitchDominant` is 0 (its numerator
vanishes because roll is constant). -/
lemma crossCorrelationOf_bufferPitchDominant : crossCorrelationOf bufferPitchDominant = 0 := by
  have h : crossNumOf bufferPitchDominant = 0 := by
    norm_num [crossNumOf, bufferPitchDominant, mkEntry, listMean, pitchVals, rollVals]
  rw [crossCorrelationOf, h]
  norm_num

/-- `bufferPitchDominant` is classified pitch-dominant. -/
lemma dominantAxisOf_bufferPitchDominant : dominantAxisOf bufferPitchDominant = .pitch := by
  norm_num [dominantAxisOf, varianceRatioOf, pitchVarianceOf, rollVarianceOf, listVariance,
    bufferPitchDominant, mkEntry, listMean, pitchVals, rollVals]

/-- On `bufferPitchDominant` the relative wave direction is `π` (pitch
dominant, cross-correlation not positive). -/
lemma calcRel_bufferPitchDominant (cfg : PluginConfig) :
    calculateRelativeWaveDirection bufferPitchDominant
      (calculateMotionStatistics bufferPitchDominant cfg) = some Real.pi := by
  rw [calculateMotionStatistics,
    if_neg (show ¬ bufferPitchDominant.length < 5 by decide)]
  unfold calculateRelativeWaveDirection
  rw [if_neg (show ¬ bufferPitchDominant.length < 10 by decide)]
  dsimp only
  rw [dominantAxisOf_bufferPitchDominant]
  dsimp only
  rw [crossCorrelationOf_bufferPitchDominant]
  rw [if_neg (lt_irrefl (0 : ℝ))]
  rw [if_neg (not_lt.mpr Real.pi_pos.le)]

/-- On `bufferPitchDominant` with no previously stored direction, the
direction computation reports the once-normalized value of `π + heading`. -/
lemma calcAbs_bufferPitchDominant (h : ℝ) (cfg : PluginConfig) :
    (calculateAbsoluteWaveDirection bufferPitchDominant
      (calculateMotionStatistics bufferPitchDominant cfg) (some h)
      emptyDirectionState cfg).1 = some (wrapDirection (Real.pi + h)) := by
  unfold calculateAbsoluteWaveDirection
  rw [calcRel_bufferPitchDominant cfg]
  dsimp only [emptyDirectionState]

/-- C4 (counterexample): the claim quantifies over every heading history,
but with the out-of-range stored heading 13 rad the emitted direction is
`13 - π ≥ 2π`: the single conditional subtraction at src/index.ts:538-543
does not reduce `π + 13` into `[0, 2π)`. -/
theorem direction_exceeds_range :
    (calculateAbsoluteWaveDirection bufferPitchDominant
      (calculateMotionStatistics bufferPitchDominant cfgDefault) (some 13)
      emptyDirectionState cfgDefault).1 = some (13 - Real.pi) ∧
    ¬ (13 - Real.pi < 2 * Real.pi) := by
  have hpi2 : Real.pi < 3.15 := Real.pi_lt_d2
  have hpi := Real.pi_pos
  constructor
  · rw [calcAbs_bufferPitchDominant 13 cfgDefault]
    have hw : wrapDirection (Real.pi + 13) = 13 - Real.pi := by
      unfold wrapDirection
      dsimp only
      rw [if_pos (show 2 * Real.pi ≤ Real.pi + 13 by linarith)]
      rw [if_neg (show ¬ Real.pi + 13 - 2 * Real.pi < 0 by linarith)]
      ring
    rw [hw]
  · intro hlt
    linarith

/-- Witness for `direction_confidence_range` at heading 0, smoothing 0, the
empty direction state and the empty buffer. -/
theorem direction_confidence_range_witness :
    ((0 : ℝ) ≤ 0 ∧ (0 : ℝ) < 2 * Real.pi ∧
      0 ≤ cfgSmoothingZero.directionSmoothing ∧ cfgSmoothingZero.directionSmoothing ≤ 1 ∧
      (∀ d : ℝ, emptyDirectionState.lastDirection = some d → 0 ≤ d ∧ d < 2 * Real.pi) ∧
      0 ≤ emptyDirectionState.directionConfidence ∧
      emptyDirectionState.directionConfidence ≤ 1) ∧
    ((∀ dir,
      (calculateAbsoluteWaveDirection [] neutralStats (some 0)
        emptyDirectionState cfgSmoothingZero).1 = some dir →
      0 ≤ dir ∧ dir < 2 * Real.pi) ∧
    (0 ≤ (calculateAbsoluteWaveDirection [] neutralStats
        (some 0) emptyDirectionState cfgSmoothingZero).2.directionConfidence ∧
      (calculateAbsoluteWaveDirection [] neutralStats
        (some 0) emptyDirectionState cfgSmoothingZero).2.directionConfidence ≤ 1)) :=
  ⟨⟨le_refl 0, Real.two_pi_pos, le_refl 0, zero_le_one,
      fun _ hd => Option.noConfusion hd, le_refl 0, zero_le_one⟩,
    direction_confidence_range [] neutralStats 0 emptyDirectionState cfgSmoothingZero
      (le_refl 0) Real.two_pi_pos (le_refl 0) zero_le_one
      (fun _ hd => Option.noConfusion hd) (le_refl 0) zero_le_one⟩

/-- C5 (confirmed): with `directionSmoothing = 1` and an in-range heading,
whenever a direction is produced it equals the raw unsmoothed absolute
direction — the relative direction plus heading reduced into `[0, 2π)` —
regardless of the previously stored direction and smoothing state. -/
theorem smoothing_one_identity (buffer : List AttitudeBufferEntry)
    (stats : MotionStatistics) (heading : ℝ) (dirState : DirectionState)
    (cfg : PluginConfig)
    (hh0 : 0 ≤ heading) (hh1 : heading < 2 * Real.pi)
    (hs : cfg.directionSmoothing = 1) (d : ℝ)
    (hd : (calculateAbsoluteWaveDirection buffer stats (some heading) dirState cfg).1 = some d) :
    ∃ rel, calculateRelativeWaveDirection buffer stats = some rel ∧
      d = specNormalize (rel + heading) := by
  have hpi := Real.pi_pos
  unfold calculateAbsoluteWaveDirection at hd
  cases hrel : calculateRelativeWaveDirection buffer stats with
  | none =>
    rw [hrel] at hd
    simp at hd
  | some rel =>
    rw [hrel] at hd
    dsimp only at hd
    rw [Option.some_inj] at hd
    have hrelmem := relativeDirection_mem buffer stats rel hrel
    have habs := wrapDirection_mem (rel + heading) (by linarith [hrelmem.1])
      (by linarith [hrelmem.2])
    have hspec : wrapDirection (rel + heading) = specNormalize (rel + heading) :=
      wrapDirection_eq_specNormalize _ (by linarith [hrelmem.1]) (by linarith [hrelmem.2])
    refine ⟨rel, rfl, ?_⟩
    cases hld : dirState.lastDirection with
    | none =>
      rw [hld] at hd
      dsimp only at hd
      rw [← hd]
      exact hspec
    | some lastDir =>
      rw [hld] at hd
      dsimp only at hd
      rw [hs, one_mul] at hd
      have hshifts := wrapDirection_shifts (wrapDirection (rel + heading)) habs.1 habs.2
      rcases wrapDelta_shift (wrapDirection (rel + heading) - lastDir) with h | h | h
      · rw [h, show lastDir + (wrapDirection (rel + heading) - lastDir) =
            wrapDirection (rel + heading) by ring, hshifts.1] at hd
        rw [← hd]
        exact hspec
      · rw [h, show lastDir + (wrapDirection (rel + heading) - lastDir - 2 * Real.pi) =
            wrapDirection (rel + heading) - 2 * Real.pi by ring, hshifts.2.1] at hd
        rw [← hd]
        exact hspec
      · rw [h, show lastDir + (wrapDirection (rel + heading) - lastDir + 2 * Real.pi) =
            wrapDirection (rel + heading) + 2 * Real.pi by ring, hshifts.2.2] at hd
        rw [← hd]
        exact hspec

/-- Witness for `smoothing_one_identity`: on `bufferPitchDominant` with
heading 0, smoothing 1 and the empty smoothing state, a direction is
produced. -/
theorem smoothing_one_identity_witness :
    ((0 : ℝ) ≤ 0 ∧ (0 : ℝ) < 2 * Real.pi ∧ cfgSmoothingOne.directionSmoothing = 1 ∧
      (calculateAbsoluteWaveDirection bufferPitchDominant
        (calculateMotionStatistics bufferPitchDominant cfgSmoothingOne) (some 0)
        emptyDirectionState cfgSmoothingOne).1 = some (wrapDirection (Real.pi + 0))) ∧
    (∃ rel, calculateRelativeWaveDirection bufferPitchDominant
        (calculateMotionStatistics bufferPitchDominant cfgSmoothingOne) = some rel ∧
      wrapDirection (Real.pi + 0) = specNormalize (rel + 0)) :=
  ⟨⟨le_refl 0, Real.two_pi_pos, rfl, calcAbs_bufferPitchDominant 0 cfgSmoothingOne⟩,
    smoothing_one_identity bufferPitchDominant
      (calculateMotionStatistics bufferPitchDominant cfgSmoothingOne) 0 emptyDirectionState
      cfgSmoothingOne (le_refl 0) Real.two_pi_pos rfl
      (wrapDirection (Real.pi + 0)) (calcAbs_bufferPitchDominant 0 cfgSmoothingOne)⟩

/-- C7 (confirmed): a tick with unknown pitch or unknown roll is a no-op:
the state (buffer, period history, direction state, confidence) is returned
unchanged and no result is emitted (src/index.ts:656-659). -/
theorem tick_skipped_on_missing_attitude (s : PluginState) (now : ℚ)
    (h : s.lastAttitude.pitch = none ∨ s.lastAttitude.roll = none) :
    calculateSeaState s now = (s, none) := by
  unfold calculateSeaState
  rcases h with h | h
  · rw [h]
  · rcases hp : s.lastAttitude.pitch with _ | p
    · rfl
    · rw [h]

/-- Witness for `tick_skipped_on_missing_attitude` at the start state. -/
theorem tick_skipped_on_missing_attitude_witness :
    ((startState cfgDefault).lastAttitude.pitch = none ∨
      (startState cfgDefault).lastAttitude.roll = none) ∧
    calculateSeaState (startState cfgDefault) 0 = (startState cfgDefault, none) :=
  ⟨Or.inl rfl, tick_skipped_on_missing_attitude (startState cfgDefault) 0 (Or.inl rfl)⟩

/-- A bounded push never shrinks the buffer below its previous length. -/
lemma pushEntry_length_ge (buf : List AttitudeBufferEntry) (e : AttitudeBufferEntry) (m : ℤ) :
    buf.length ≤ (pushEntry buf e m).length := by
  unfold pushEntry
  dsimp only
  split
  · rw [List.length_tail, List.length_append]
    simp
  · rw [List.length_append]
    simp

/-- The direction computation with an unknown heading reports nothing and
leaves the direction state untouched (src/index.ts:519-524). -/
lemma calcAbs_heading_none (buffer : List AttitudeBufferEntry) (stats : MotionStatistics)
    (dirState : DirectionState) (cfg : PluginConfig) :
    calculateAbsoluteWaveDirection buffer stats none dirState cfg = (none, dirState) := rfl

/-- C8 (confirmed): on a tick with pitch and roll known but heading unknown,
with direction enabled and a buffer of at least 10 entries, a result is
emitted whose direction is absent, the direction state (history, last
direction, confidence) is not mutated, and waveHeight, heave, period and
motionMagnitude are identical to what the same tick emits when the heading
is known. -/
theorem heading_absent_direction_absent (s : PluginState) (now : ℚ) (h : ℝ) (p r : ℚ)
    (hhd : s.lastHeading = none)
    (hp : s.lastAttitude.pitch = some p)
    (hr : s.lastAttitude.roll = some r)
    (_hdir : s.currentConfig.enableDirection = true)
    (_h10 : 10 ≤ s.attitudeBuffer.length) :
    ((calculateSeaState s now).2.map (fun o => o.direction) = some none) ∧
    ((calculateSeaState s now).1.directionState = s.directionState) ∧
    ((calculateSeaState s now).2.map (fun o => o.waveHeight) =
      (calculateSeaState { s with lastHeading := some h } now).2.map (fun o => o.waveHeight)) ∧
    ((calculateSeaState s now).2.map (fun o => o.heave) =
      (calculateSeaState { s with lastHeading := some h } now).2.map (fun o => o.heave)) ∧
    ((calculateSeaState s now).2.map (fun o => o.period) =
      (calculateSeaState { s with lastHeading := some h } now).2.map (fun o => o.period)) ∧
    ((calculateSeaState s now).2.map (fun o => o.motionMagnitude) =
      (calculateSeaState { s with lastHeading := some h } now).2.map
        (fun o => o.motionMagnitude)) := by
  unfold calculateSeaState
  rw [hp, hr, hhd]
  dsimp only
  split_ifs <;> simp [calcAbs_heading_none]

/-- Witness for `heading_absent_direction_absent` at `stateDeepBuffer` with
heading 1. -/
theorem heading_absent_direction_absent_witness :
    (stateDeepBuffer.lastHeading = none ∧
      stateDeepBuffer.lastAttitude.pitch = some 1 ∧
      stateDeepBuffer.lastAttitude.roll = some 1 ∧
      stateDeepBuffer.currentConfig.enableDirection = true ∧
      10 ≤ stateDeepBuffer.attitudeBuffer.length) ∧
    (((calculateSeaState stateDeepBuffer 0).2.map (fun o => o.direction) = some none) ∧
    ((calculateSeaState stateDeepBuffer 0).1.directionState = stateDeepBuffer.directionState) ∧
    ((calculateSeaState stateDeepBuffer 0).2.map (fun o => o.waveHeight) =
      (calculateSeaState { stateDeepBuffer with lastHeading := some 1 } 0).2.map
        (fun o => o.waveHeight)) ∧
    ((calculateSeaState stateDeepBuffer 0).2.map (fun o => o.heave) =
      (calculateSeaState { stateDeepBuffer with lastHeading := some 1 } 0).2.map
        (fun o => o.heave)) ∧
    ((calculateSeaState stateDeepBuffer 0).2.map (fun o => o.period) =
      (calculateSeaState { stateDeepBuffer with lastHeading := some 1 } 0).2.map
        (fun o => o.period)) ∧
    ((calculateSeaState stateDeepBuffer 0).2.map (fun o => o.motionMagnitude) =
      (calculateSeaState { stateDeepBuffer with lastHeading := some 1 } 0).2.map
        (fun o => o.motionMagnitude))) :=
  ⟨⟨rfl, rfl, rfl, rfl, by decide⟩,
    heading_absent_direction_absent stateDeepBuffer 0 1 1 1 rfl rfl rfl rfl (by decide)⟩

/-! Erasure lemmas: none of the computations reads yaw, so each one is
unchanged when every stored yaw is forgotten. -/

/-- Erasing yaw does not change pitch, roll, timestamp or motion
magnitude. -/
lemma entryEraseYaw_fields (e : AttitudeBufferEntry) :
    (entryEraseYaw e).pitch = e.pitch ∧ (entryEraseYaw e).roll = e.roll ∧
    (entryEraseYaw e).timestamp = e.timestamp ∧
    (entryEraseYaw e).motionMagnitude = e.motionMagnitude :=
  ⟨rfl, rfl, rfl, rfl⟩

/-- Zero-crossing detection ignores yaw. -/
lemma zeroCrossingTimes_erase :
    ∀ buffer : List AttitudeBufferEntry,
      zeroCrossingTimes (buffer.map entryEraseYaw) = zeroCrossingTimes buffer := by
  intro buffer
  induction buffer with
  | nil => rfl
  | cons a rest ih =>
    cases rest with
    | nil => rfl
    | cons b rest2 =>
      rw [List.map_cons, List.map_cons]
      rw [zeroCrossingTimes, zeroCrossingTimes]
      rw [← List.map_cons]
      rw [ih]
      rfl

/-- Period detection ignores yaw. -/
lemma calculatePeriod_erase (buffer : List AttitudeBufferEntry) (periods : List ℚ)
    (cfg : PluginConfig) :
    calculatePeriod (buffer.map entryEraseYaw) periods cfg =
      calculatePeriod buffer periods cfg := by
  unfold calculatePeriod
  rw [List.length_map, zeroCrossingTimes_erase]

/-- The pitch series ignores yaw. -/
lemma pitchVals_erase (buffer : List AttitudeBufferEntry) :
    pitchVals (buffer.map entryEraseYaw) = pitchVals buffer := by
  unfold pitchVals
  rw [List.map_map]
  rfl

/-- The roll series ignores yaw. -/
lemma rollVals_erase (buffer : List AttitudeBufferEntry) :
    rollVals (buffer.map entryEraseYaw) = rollVals buffer := by
  unfold rollVals
  rw [List.map_map]
  rfl

/-- The cross-correlation numerator ignores yaw. -/
lemma crossNumOf_erase (buffer : List AttitudeBufferEntry) :
    crossNumOf (buffer.map entryEraseYaw) = crossNumOf buffer := by
  unfold crossNumOf
  rw [pitchVals_erase, rollVals_erase, List.map_map]
  rfl

/-- The pitch variance ignores yaw. -/
lemma pitchVarianceOf_erase (buffer : List AttitudeBufferEntry) :
    pitchVarianceOf (buffer.map entryEraseYaw) = pitchVarianceOf buffer := by
  unfold pitchVarianceOf
  rw [pitchVals_erase]

/-- The roll variance ignores yaw. -/
lemma rollVarianceOf_erase (buffer : List AttitudeBufferEntry) :
    rollVarianceOf (buffer.map entryEraseYaw) = rollVarianceOf buffer := by
  unfold rollVarianceOf
  rw [rollVals_erase]

/-- The cross-correlation ignores yaw. -/
lemma crossCorrelationOf_erase (buffer : List AttitudeBufferEntry) :
    crossCorrelationOf (buffer.map entryEraseYaw) = crossCorrelationOf buffer := by
  unfold crossCorrelationOf
  rw [crossNumOf_erase, List.length_map, pitchVarianceOf_erase, rollVarianceOf_erase]

/-- The variance ratio ignores yaw. -/
lemma varianceRatioOf_erase (buffer : List AttitudeBufferEntry) :
    varianceRatioOf (buffer.map entryEraseYaw) = varianceRatioOf buffer := by
  unfold varianceRatioOf
  rw [pitchVarianceOf_erase, rollVarianceOf_erase]

/-- The dominant axis ignores yaw. -/
lemma dominantAxisOf_erase (buffer : List AttitudeBufferEntry) :
    dominantAxisOf (buffer.map entryEraseYaw) = dominantAxisOf buffer := by
  unfold dominantAxisOf
  rw [varianceRatioOf_erase]

/-- The phase shift ignores yaw. -/
lemma motionPhaseShiftOf_erase (buffer : List AttitudeBufferEntry) (cfg : PluginConfig) :
    motionPhaseShiftOf (buffer.map entryEraseYaw) cfg = motionPhaseShiftOf buffer cfg := by
  unfold motionPhaseShiftOf
  rw [List.length_map, pitchVals_erase, rollVals_erase]

/-- The motion statistics ignore yaw. -/
lemma calculateMotionStatistics_erase (buffer : List AttitudeBufferEntry)
    (cfg : PluginConfig) :
    calculateMotionStatistics (buffer.map entryEraseYaw) cfg =
      calculateMotionStatistics buffer cfg := by
  unfold calculateMotionStatistics
  unfold crossCorrelationOf
  rw [List.length_map, pitchVarianceOf_erase, rollVarianceOf_erase, crossNumOf_erase,
    dominantAxisOf_erase, motionPhaseShiftOf_erase]

/-- The relative wave direction ignores yaw. -/
lemma calculateRelativeWaveDirection_erase (buffer : List AttitudeBufferEntry)
    (stats : MotionStatistics) :
    calculateRelativeWaveDirection (buffer.map entryEraseYaw) stats =
      calculateRelativeWaveDirection buffer stats := by
  unfold calculateRelativeWaveDirection
  rw [List.length_map]
  rcases stats.dominantMotionAxis
  · rfl
  · rfl
  · dsimp only
    rw [← List.map_drop, List.foldl_map]
    rfl

/-- The absolute wave direction ignores yaw. -/
lemma calculateAbsoluteWaveDirection_erase (buffer : List AttitudeBufferEntry)
    (stats : MotionStatistics) (lastHeading : Option ℝ) (dirState : DirectionState)
    (cfg : PluginConfig) :
    calculateAbsoluteWaveDirection (buffer.map entryEraseYaw) stats lastHeading dirState cfg =
      calculateAbsoluteWaveDirection buffer stats lastHeading dirState cfg := by
  unfold calculateAbsoluteWaveDirection
  rw [calculateRelativeWaveDirection_erase]

/-- Erasing yaw commutes with the bounded buffer push. -/
lemma pushEntry_erase (buffer : List AttitudeBufferEntry) (e : AttitudeBufferEntry)
    (m : ℤ) :
    (pushEntry buffer e m).map entryEraseYaw =
      pushEntry (buffer.map entryEraseYaw) (entryEraseYaw e) m := by
  unfold pushEntry
  dsimp only
  simp only [List.length_append, List.length_map, List.length_singleton]
  split
  · have h1 : List.map entryEraseYaw buffer ++ [entryEraseYaw e] =
        List.map entryEraseYaw (buffer ++ [e]) := by
      rw [List.map_append]
      rfl
    rw [h1]
    exact List.map_tail entryEraseYaw (buffer ++ [e])
  · rw [List.map_append]
    rfl

/-- A tick commutes with yaw erasure. -/
lemma calculateSeaState_erase (s : PluginState) (now : ℚ) :
    (calculateSeaState (stateEraseYaw s) now).2 = (calculateSeaState s now).2 ∧
    (calculateSeaState (stateEraseYaw s) now).1 = stateEraseYaw (calculateSeaState s now).1 := by
  unfold calculateSeaState
  dsimp only [stateEraseYaw]
  cases hpv : s.lastAttitude.pitch with
  | none =>
    cases hrv : s.lastAttitude.roll
    · refine ⟨rfl, ?_⟩
      dsimp only
      rw [hpv]
    · refine ⟨rfl, ?_⟩
      dsimp only
      rw [hpv]
  | some p =>
    cases hrv : s.lastAttitude.roll with
    | none =>
      refine ⟨rfl, ?_⟩
      dsimp only
      rw [hpv, hrv]
    | some r =>
      dsimp only
      rw [show storedYaw (none : Option ℚ) = none from rfl]
      rw [show (⟨p, r, none, now,
          Real.sqrt ((↑p * (180 / Real.pi)) ^ 2 + (↑r * (180 / Real.pi)) ^ 2)⟩ :
            AttitudeBufferEntry) =
          entryEraseYaw ⟨p, r, storedYaw s.lastAttitude.yaw, now,
            Real.sqrt ((↑p * (180 / Real.pi)) ^ 2 + (↑r * (180 / Real.pi)) ^ 2)⟩ from rfl]
      rw [← pushEntry_erase]
      rw [calculatePeriod_erase, calculateMotionStatistics_erase,
        calculateAbsoluteWaveDirection_erase, List.length_map]
      rw [hpv, hrv]
      exact ⟨rfl, rfl⟩

/-- Two states that agree after yaw erasure tick identically. -/
lemma calculateSeaState_congr (s1 s2 : PluginState) (now : ℚ)
    (hs : stateEraseYaw s1 = stateEraseYaw s2) :
    (calculateSeaState s1 now).2 = (calculateSeaState s2 now).2 ∧
    stateEraseYaw (calculateSeaState s1 now).1 = stateEraseYaw (calculateSeaState s2 now).1 := by
  have h1 := calculateSeaState_erase s1 now
  have h2 := calculateSeaState_erase s2 now
  rw [hs] at h1
  exact ⟨h1.1.symm.trans h2.1, h1.2.symm.trans h2.2⟩

/-- Two states that agree after yaw erasure, fed two inputs that agree after
yaw erasure, produce the same output and stay in agreement. -/
lemma stepInput_congr (s1 s2 : PluginState) (i1 i2 : TickInput)
    (hi : inputEraseYaw i1 = inputEraseYaw i2) (hs : stateEraseYaw s1 = stateEraseYaw s2) :
    (stepInput s1 i1).2 = (stepInput s2 i2).2 ∧
    stateEraseYaw (stepInput s1 i1).1 = stateEraseYaw (stepInput s2 i2).1 := by
  have hip : i1.pitch = i2.pitch := congrArg (fun t => t.pitch) hi
  have hir : i1.roll = i2.roll := congrArg (fun t => t.roll) hi
  have hih : i1.heading = i2.heading := congrArg (fun t => t.heading) hi
  have hin : i1.now = i2.now := congrArg (fun t => t.now) hi
  have hp : s1.lastAttitude.pitch = s2.lastAttitude.pitch :=
    congrArg (fun t => t.lastAttitude.pitch) hs
  have hr : s1.lastAttitude.roll = s2.lastAttitude.roll :=
    congrArg (fun t => t.lastAttitude.roll) hs
  have hh : s1.lastHeading = s2.lastHeading := congrArg (fun t => t.lastHeading) hs
  have hm : s1.maxBufferSize = s2.maxBufferSize := congrArg (fun t => t.maxBufferSize) hs
  have hper : s1.periods = s2.periods := congrArg (fun t => t.periods) hs
  have hds : s1.directionState = s2.directionState := congrArg (fun t => t.directionState) hs
  have hcfg : s1.currentConfig = s2.currentConfig := congrArg (fun t => t.currentConfig) hs
  have hbuf : s1.attitudeBuffer.map entryEraseYaw = s2.attitudeBuffer.map entryEraseYaw :=
    congrArg (fun t => t.attitudeBuffer) hs
  unfold stepInput
  dsimp only
  have hs2 : stateEraseYaw
      { s1 with
          lastAttitude :=
            { pitch := updateField i1.pitch s1.lastAttitude.pitch
              roll := updateField i1.roll s1.lastAttitude.roll
              yaw := updateField i1.yaw s1.lastAttitude.yaw }
          lastHeading := updateField i1.heading s1.lastHeading } =
      stateEraseYaw
      { s2 with
          lastAttitude :=
            { pitch := updateField i2.pitch s2.lastAttitude.pitch
              roll := updateField i2.roll s2.lastAttitude.roll
              yaw := updateField i2.yaw s2.lastAttitude.yaw }
          lastHeading := updateField i2.heading s2.lastHeading } := by
    unfold stateEraseYaw
    dsimp only
    rw [hip, hir, hih, hp, hr, hh, hm, hper, hds, hcfg, hbuf]
  rw [hin]
  exact calculateSeaState_congr _ _ i2.now hs2

/-- Runs from states that agree after yaw erasure, on input streams that
agree after yaw erasure, emit identical outputs. -/
lemma runInputs_congr :
    ∀ (inputs1 inputs2 : List TickInput) (s1 s2 : PluginState),
      inputs1.map inputEraseYaw = inputs2.map inputEraseYaw →
      stateEraseYaw s1 = stateEraseYaw s2 →
      runInputs s1 inputs1 = runInputs s2 inputs2 := by
  intro inputs1
  induction inputs1 with
  | nil =>
    intro inputs2 s1 s2 hi _
    cases inputs2 with
    | nil => rfl
    | cons i2 rest2 => simp at hi
  | cons i1 rest1 ih =>
    intro inputs2 s1 s2 hi hs
    cases inputs2 with
    | nil => simp at hi
    | cons i2 rest2 =>
      rw [List.map_cons, List.map_cons] at hi
      injection hi with hi1 hirest
      have hstep := stepInput_congr s1 s2 i1 i2 hi1 hs
      show (stepInput s1 i1).2 :: runInputs (stepInput s1 i1).1 rest1 =
        (stepInput s2 i2).2 :: runInputs (stepInput s2 i2).1 rest2
      rw [hstep.1, ih rest2 _ _ hirest hstep.2]

/-- C10 (confirmed): two input streams that agree on pitch, roll,
timestamps, heading and configuration and differ only in yaw produce
identical emitted outputs on every tick: yaw is stored but never read. -/
theorem yaw_noninterference (cfg : PluginConfig) (inputs1 inputs2 : List TickInput)
    (h : inputs1.map inputEraseYaw = inputs2.map inputEraseYaw) :
    runInputs (startState cfg) inputs1 = runInputs (startState cfg) inputs2 :=
  runInputs_congr inputs1 inputs2 _ _ h rfl

/-- Witness for `yaw_noninterference` on one-tick streams that differ only
in yaw. -/
theorem yaw_noninterference_witness :
    ([⟨some 1, some 2, some 3, none, 0⟩] : List TickInput).map inputEraseYaw =
      ([⟨some 1, some 2, none, none, 0⟩] : List TickInput).map inputEraseYaw ∧
    runInputs (startState cfgDefault) [⟨some 1, some 2, some 3, none, 0⟩] =
      runInputs (startState cfgDefault) [⟨some 1, some 2, none, none, 0⟩] :=
  ⟨rfl, yaw_noninterference cfgDefault
    [⟨some 1, some 2, some 3, none, 0⟩] [⟨some 1, some 2, none, none, 0⟩] rfl⟩

end SeaState
